import Mathlib

/-!
Verification of the Jarvis triage cron of the Centro de Mando repository
(the `scripts/` batch job, the one subsystem with algorithmic content).

The embedding models the script's pure helpers (`normalizeText`,
`inferAgentBucket`, `needsNico`, `buildSubtasks`, roster lookup) directly,
and the orchestration of `main` as a step function over an explicit store
state (tasks, subtasks, comments, activity log, agents) with a failure
oracle standing in for fallible store calls.

Text processing is modelled on `List Char` (JavaScript strings are
sequences of characters; all the keywords and patterns involved are
in the basic multilingual plane, where code points and JS code units
coincide).  Case folding is ASCII, matching the behaviour of
`toLowerCase`/`/i` on the ASCII keyword and filler-word sets the script
uses.  A nullable database text column is `Option String`; row ids and
timestamps are `Nat`.
-/

/-- A row of the `tasks` relation, as selected by the cron
(`id,title,description,status,created_at,owner_id`). -/
structure TaskRow where
  id : Nat
  owner_id : Nat
  title : String
  description : Option String
  status : String
  created_at : Nat
deriving DecidableEq, Repr

/-- A row of the `agents` relation as selected by `getAgentRoster`
(`id,name,role,is_active`, filtered by `owner_id` and `is_active`). -/
structure Agent where
  id : Nat
  owner_id : Nat
  name : String
  role : String
  is_active : Bool
deriving DecidableEq, Repr

/-- The function `normalizeText(s)` of the script: `(s || '').toString().trim()`.
A missing (SQL `NULL`) value becomes the empty string; then trim
whitespace from both ends. -/
def normalizeText (s : Option String) : List Char :=
  (((s.getD "").data.dropWhile Char.isWhitespace).reverse.dropWhile
    Char.isWhitespace).reverse

/-- JavaScript `text.startsWith(pattern)` on character lists. -/
def startsWithList : List Char → List Char → Bool
  | _, [] => true
  | [], _ :: _ => false
  | c :: cs, d :: ds => c == d && startsWithList cs ds

/-- JavaScript `t.includes(w)`: the pattern `w` occurs contiguously in `t`. -/
def containsSeq : List Char → List Char → Bool
  | [], w => w.isEmpty
  | c :: rest, w => startsWithList (c :: rest) w || containsSeq rest w

/-- Keyword set of the first classifier rule (bucket `Skool`). -/
def skoolWords : List (List Char) :=
  ["skool".data, "comunidad".data, "curso".data, "miembros".data,
   "post".data, "contenido".data]

/-- Keyword set of the second classifier rule (bucket `Ops`). -/
def opsWords : List (List Char) :=
  ["deploy".data, "infra".data, "servidor".data, "gateway".data,
   "cron".data, "ssh".data, "dns".data, "docker".data, "uptime".data,
   "monitor".data]

/-- Keyword set of the third classifier rule (bucket `Dev`). -/
def devWords : List (List Char) :=
  ["bug".data, "error".data, "fix".data, "api".data, "next".data,
   "frontend".data, "backend".data, "supabase".data, "sql".data,
   "typescript".data, "codigo".data, "código".data]

/-- Keyword set of the fourth classifier rule (bucket `Research`). -/
def researchWords : List (List Char) :=
  ["investigar".data, "research".data, "benchmark".data, "comparar".data,
   "alternativa".data, "documentación".data, "docs".data]

/-- The lower-cased haystack
`` `${normalizeText(title)}\n${normalizeText(description)}`.toLowerCase() ``. -/
def triageText (title : String) (description : Option String) : List Char :=
  (normalizeText (some title) ++ '\n' :: normalizeText description).map
    Char.toLower

/-- The classifier `inferAgentBucket(title, description)`: cascading keyword tests against
the lower-cased concatenated text, first match wins, default bucket
`'Jarvis'`. -/
def inferAgentBucket (title : String) (description : Option String) : String :=
  let t := triageText title description
  if skoolWords.any (fun w => containsSeq t w) then "Skool"
  else if opsWords.any (fun w => containsSeq t w) then "Ops"
  else if devWords.any (fun w => containsSeq t w) then "Dev"
  else if researchWords.any (fun w => containsSeq t w) then "Research"
  else "Jarvis"

/-- JavaScript `\w` (ASCII word character `[A-Za-z0-9_]`). -/
def isWordChar (c : Char) : Bool :=
  c.isAlphanum || c == '_'

/-- Drop the maximal runs of non-word characters from both ends. -/
def stripNonWord (l : List Char) : List Char :=
  ((l.dropWhile (fun c => !isWordChar c)).reverse.dropWhile
    (fun c => !isWordChar c)).reverse

/-- The filler-word denylist of the vagueness regex, lower-case. -/
def fillerWords : List (List Char) :=
  ["idea".data, "ayuda".data, "pendiente".data, "hacer".data, "tbd".data,
   "todo".data]

/-- Executable reading of the regex test
`/^\W*(idea|ayuda|pendiente|hacer|tbd|todo)\W*$/i.test(s)`: strip the
surrounding non-word characters and compare the lower-cased core against
the denylist. -/
def matchesFiller (l : List Char) : Bool :=
  fillerWords.any (fun w => (stripNonWord l).map Char.toLower == w)

/-- Declarative semantics of the same regex: the whole string decomposes as
non-word characters, one denylist word (case-insensitively), and non-word
characters. -/
def fillerRegexMatch (l : List Char) : Prop :=
  ∃ pre core post : List Char,
    l = pre ++ core ++ post ∧
    (∀ c ∈ pre, isWordChar c = false) ∧
    (∀ c ∈ post, isWordChar c = false) ∧
    core.map Char.toLower ∈ fillerWords

/-- The vagueness verdict `needsNico(task)`: vague title (trimmed length below 8 or filler-word
match) and empty trimmed description. -/
def needsNico (task : TaskRow) : Bool :=
  let title := normalizeText (some task.title)
  let desc := normalizeText task.description
  let tooVague := decide (title.length < 8) || matchesFiller title
  let noDesc := desc.length == 0
  tooVague && noDesc

/-- One step descriptor produced by `buildSubtasks`. -/
structure SubtaskStep where
  title : String
  definition_of_done : String
  bucket : String
deriving DecidableEq, Repr

/-- The unconditional opening step of every plan. -/
def clarifyStep : SubtaskStep :=
  { title := "Aclarar alcance y criterios"
    definition_of_done :=
      "Queda escrito en la tarea: objetivo, entradas necesarias, restricciones, y criterio de éxito verificable (qué se considera “hecho”)."
    bucket := "Jarvis" }

/-- The `Research` bucket step. -/
def researchStep : SubtaskStep :=
  { title := "Investigación rápida (3 fuentes)"
    definition_of_done :=
      "Entrega un resumen de 10-15 líneas + 3 links relevantes + recomendación clara (qué hacer / qué no hacer) con pros y contras."
    bucket := "Research" }

/-- The `Skool` bucket step. -/
def skoolStep : SubtaskStep :=
  { title := "Diseñar pieza / acción para Skool"
    definition_of_done :=
      "Queda un borrador listo para publicar (texto final) + checklist de publicación (dónde, cuándo, CTA)."
    bucket := "Skool" }

/-- The `Dev` bucket step. -/
def devStep : SubtaskStep :=
  { title := "Implementación técnica"
    definition_of_done :=
      "PR/commit listo o cambios aplicados: incluye qué se cambió, cómo probarlo y evidencia (captura/log) de que pasa."
    bucket := "Dev" }

/-- The `Ops` bucket step. -/
def opsStep : SubtaskStep :=
  { title := "Ejecución/operación"
    definition_of_done :=
      "Cambio aplicado en entorno correspondiente + verificación (comando/screenshot/log) + rollback plan documentado."
    bucket := "Ops" }

/-- The unconditional closing step of every plan. -/
def validateStep : SubtaskStep :=
  { title := "Validación final"
    definition_of_done :=
      "Checklist de verificación completado y nota final en la tarea confirmando que el objetivo se cumplió."
    bucket := "Jarvis" }

/-- The plan as a function of the inferred bucket: clarify, then the
bucket-specific steps in source order (Research, Skool, Dev, Ops), then
validate, capped at 7. -/
def buildPlan (bucket : String) : List SubtaskStep :=
  let s0 := [clarifyStep]
  let s1 := if bucket == "Research" then s0 ++ [researchStep] else s0
  let s2 := if bucket == "Skool" then s1 ++ [skoolStep] else s1
  let s3 := if bucket == "Dev" then s2 ++ [devStep] else s2
  let s4 := if bucket == "Ops" then s3 ++ [opsStep] else s3
  (s4 ++ [validateStep]).take 7

/-- The plan builder `buildSubtasks(task)` of the script. -/
def buildSubtasks (task : TaskRow) : List SubtaskStep :=
  buildPlan (inferAgentBucket task.title task.description)

/-- A row of the `subtasks` relation as inserted by the cron.  The
`metadata` JSON object, whose single field is `triage_bucket`, is modelled
by that field directly. -/
structure SubtaskRow where
  owner_id : Nat
  task_id : Nat
  title : String
  status : String
  assignee_agent_id : Option Nat
  definition_of_done : String
  sort_order : Nat
  triage_bucket : String
deriving DecidableEq, Repr

/-- A row of the `comments` relation as inserted by the cron. -/
structure CommentRow where
  owner_id : Nat
  task_id : Nat
  author_type : String
  author_agent_id : Option Nat
  body : String
deriving DecidableEq, Repr

/-- The structured `data` payload of an activity entry: a `created` count,
a `kind` tag, or a `from`/`to` status pair. -/
inductive ActivityData where
  | created (n : Nat)
  | kind (k : String)
  | move (fromStatus toStatus : String)
deriving DecidableEq, Repr

/-- A row of the `activity_log` relation as inserted by `insertActivity`. -/
structure ActivityRow where
  owner_id : Nat
  actor_type : String
  actor_agent_id : Option Nat
  action : String
  entity_type : String
  entity_id : Nat
  data : ActivityData
deriving DecidableEq, Repr

/-- The mutable state of the backing store: the four relations the cron
writes plus the read-only agent roster relation. -/
structure Store where
  tasks : List TaskRow
  subtasks : List SubtaskRow
  comments : List CommentRow
  activity : List ActivityRow
  agents : List Agent
deriving DecidableEq, Repr

/-- The `agents` query of `getAgentRoster`: rows of the owner with
`is_active = true`. -/
def activeAgents (agents : List Agent) (oid : Nat) : List Agent :=
  agents.filter (fun a => a.owner_id == oid && a.is_active)

/-- Lookup in the roster `Map` built by
`for (a of data) map.set(a.name.toLowerCase(), a)`: the last agent whose
lower-cased name equals the key wins. -/
def rosterGet (roster : List Agent) (key : List Char) : Option Agent :=
  (roster.filter (fun a => a.name.data.map Char.toLower == key)).getLast?

/-- The resolver `pickId(bucket)` of the script:
`roster.get((bucket || '').toLowerCase())?.id || jarvisId || null`. -/
def pickId (roster : List Agent) (jarvisId : Option Nat) (bucket : String) :
    Option Nat :=
  match rosterGet roster (bucket.data.map Char.toLower) with
  | some a => some a.id
  | none => jarvisId

/-- Target status decided for a processed item:
`needs_nico` when the vagueness verdict holds, else `triage`.  (The spec
calls this status `needs_clarification`; the stored literal in this
repository is `needs_nico`.) -/
def decideStatus (task : TaskRow) : String :=
  if needsNico task then "needs_nico" else "triage"

/-- The batch of subtask rows inserted for a decomposed item, one row per
plan step, built by `plan.map` with the zero-based index as sort order. -/
def mkSubtaskRows (oid : Nat) (roster : List Agent) (jarvisId : Option Nat)
    (task : TaskRow) : List SubtaskRow :=
  (buildSubtasks task).enum.map (fun p =>
    { owner_id := oid
      task_id := task.id
      title := p.2.title
      status := "in_progress"
      assignee_agent_id := pickId roster jarvisId p.2.bucket
      definition_of_done := p.2.definition_of_done
      sort_order := p.1
      triage_bucket := p.2.bucket })

/-- The generated summary comment body. -/
def commentBody (task : TaskRow) (needs : Bool) : String :=
  let descN := normalizeText task.description
  let resumen : List Char :=
    if descN.length == 0 then "Sin descripción (se requiere aclarar).".data
    else descN.take 240
  let pasos : List (List Char) :=
    if needs then
      ["Falta info crítica: describe objetivo + entregable esperado + contexto (links/ejemplos).".data]
    else
      ["Revisar subtasks y ejecutar en orden.".data,
       "Actualizar resultados en cada subtask.".data,
       "Cerrar con validación final.".data]
  let riesgo : List Char :=
    if needs then "- Bloqueo por falta de contexto.".data
    else "- Estimación puede cambiar al descubrir dependencias.".data
  let lines : List (List Char) :=
    ["Resumen: ".data ++ resumen, [], "Pasos:".data] ++
      pasos.map (fun p => "- ".data ++ p) ++
      [[], "Links:".data, "- (vacío)".data, [], "Riesgos:".data, riesgo]
  String.mk ((lines.intersperse ['\n']).flatten)

/-- The comment row inserted for every processed item. -/
def mkCommentRow (oid : Nat) (jarvisId : Option Nat) (task : TaskRow)
    (needs : Bool) : CommentRow :=
  { owner_id := oid
    task_id := task.id
    author_type := "agent"
    author_agent_id := jarvisId
    body := commentBody task needs }

/-- An activity entry as built by `insertActivity` for the cron's calls
(actor type `agent`, entity type `task`). -/
def mkActivity (oid : Nat) (jarvisId : Option Nat) (action : String)
    (taskId : Nat) (d : ActivityData) : ActivityRow :=
  { owner_id := oid
    actor_type := "agent"
    actor_agent_id := jarvisId
    action := action
    entity_type := "task"
    entity_id := taskId
    data := d }

/-- The conditional status write:
`update({status}).eq('owner_id', oid).eq('id', id).eq('status', 'inbox')`.
Only rows matching owner, id and current status exactly `inbox` are
updated; all other rows are untouched. -/
def condUpdateStatus (tasks : List TaskRow) (oid id : Nat)
    (newStatus : String) : List TaskRow :=
  tasks.map (fun r =>
    if r.owner_id == oid && r.id == id && r.status == "inbox" then
      { r with status := newStatus }
    else r)

/-- Insertion sort by `created_at`, modelling the query's
order-by-created-at-ascending clause. -/
def insertByCreated (t : TaskRow) : List TaskRow → List TaskRow
  | [] => [t]
  | u :: us =>
    if t.created_at ≤ u.created_at then t :: u :: us
    else u :: insertByCreated t us

/-- Sort a task list by ascending creation time. -/
def sortByCreated : List TaskRow → List TaskRow
  | [] => []
  | t :: ts => insertByCreated t (sortByCreated ts)

/-- The backlog query of `main`: owner's rows with status exactly `inbox`,
ordered by creation time ascending, limited to 20. -/
def fetchInbox (s : Store) (oid : Nat) : List TaskRow :=
  (sortByCreated
    (s.tasks.filter (fun t => t.owner_id == oid && t.status == "inbox"))).take 20

/-- The classifier's rule table as the spec describes it: an ordered list
of keyword-set-to-bucket pairs, evaluated top to bottom. -/
def classifierRules : List (List (List Char) × String) :=
  [(skoolWords, "Skool"), (opsWords, "Ops"), (devWords, "Dev"),
   (researchWords, "Research")]

/-- Spec-side classifier: the first rule whose keyword set has any match in
the lower-cased concatenated text wins; if none match, the default bucket. -/
def classifyByRules (title : String) (description : Option String) : String :=
  match classifierRules.find?
      (fun r => r.1.any (fun w => containsSeq (triageText title description) w)) with
  | some r => r.2
  | none => "Jarvis"

/-- One per-item outcome record accumulated in `processed`. -/
structure Outcome where
  id : Nat
  subtasks_created : Nat
  status : String
  skipped_existing : Bool
deriving DecidableEq, Repr

/-- The running state of one invocation: the store, a counter of store
calls made so far (used by the failure oracle), and the accumulated
outcomes. -/
structure RunSt where
  store : Store
  calls : Nat
  processed : List Outcome
deriving DecidableEq, Repr

/-- Result of a (possibly failing) fragment of the run: either the state
after it, or the first error message together with the state reached when
the failing call was issued (fail-fast; nothing is rolled back). -/
inductive RunRes where
  | ok (st : RunSt)
  | fail (msg : String) (st : RunSt)
deriving DecidableEq, Repr

/-- Sequencing: a failure short-circuits the rest of the run. -/
def RunRes.andThen (r : RunRes) (f : RunSt → RunRes) : RunRes :=
  match r with
  | .ok st => f st
  | .fail m st => .fail m st

/-- The state reached by a run fragment, successful or not. -/
def RunRes.state : RunRes → RunSt
  | .ok st => st
  | .fail _ st => st

/-- One store call: the oracle decides whether this call errors (in which
case the store is untouched and the run aborts); otherwise the mutation is
applied.  A read is a call whose mutation is the identity. -/
def storeCall (o : Nat → Bool) (st : RunSt) (msg : String)
    (mutate : Store → Store) : RunRes :=
  if o st.calls then .fail msg { st with calls := st.calls + 1 }
  else .ok { st with calls := st.calls + 1, store := mutate st.store }

/-- The loop body of `main` for one fetched task: defensive status
re-check, existing-subtask check, optional decomposition (batch subtask
insert plus `create_subtasks` activity), unconditional summary comment plus
`add_comment` activity, conditional status write plus `move_status`
activity, and the outcome record. -/
def processItem (o : Nat → Bool) (oid : Nat) (roster : List Agent)
    (jarvisId : Option Nat) (task : TaskRow) (st : RunSt) : RunRes :=
  if task.status ≠ "inbox" then .ok st
  else
    (storeCall o st "subtasks select" (fun s => s)).andThen fun st1 =>
      let alreadyHas :=
        !((st1.store.subtasks.filter
            (fun r => r.owner_id == oid && r.task_id == task.id)).take 1).isEmpty
      let needs := needsNico task
      let newStatus := decideStatus task
      let finish := fun (st2 : RunSt) (createdCount : Nat) =>
        (storeCall o st2 "comments insert" (fun s =>
            { s with comments :=
                s.comments ++ [mkCommentRow oid jarvisId task needs] })).andThen
          fun st3 =>
        (storeCall o st3 "activity insert" (fun s =>
            { s with activity :=
                s.activity ++
                  [mkActivity oid jarvisId "add_comment" task.id
                    (.kind "triage_summary")] })).andThen fun st4 =>
        (storeCall o st4 "tasks update" (fun s =>
            { s with tasks :=
                condUpdateStatus s.tasks oid task.id newStatus })).andThen
          fun st5 =>
        (storeCall o st5 "activity insert" (fun s =>
            { s with activity :=
                s.activity ++
                  [mkActivity oid jarvisId "move_status" task.id
                    (.move "inbox" newStatus)] })).andThen fun st6 =>
        .ok { st6 with processed :=
                st6.processed ++
                  [⟨task.id, createdCount, newStatus, alreadyHas⟩] }
      if !alreadyHas && !needs then
        let rows := mkSubtaskRows oid roster jarvisId task
        (storeCall o st1 "subtasks insert" (fun s =>
            { s with subtasks := s.subtasks ++ rows })).andThen fun st2 =>
        (storeCall o st2 "activity insert" (fun s =>
            { s with activity :=
                s.activity ++
                  [mkActivity oid jarvisId "create_subtasks" task.id
                    (.created rows.length)] })).andThen fun st3 =>
        finish st3 rows.length
      else finish st1 0

/-- The `for (task of tasks)` loop: items processed strictly in order, the
first store failure aborting the remainder. -/
def processLoop (o : Nat → Bool) (oid : Nat) (roster : List Agent)
    (jarvisId : Option Nat) : List TaskRow → RunSt → RunRes
  | [], st => .ok st
  | t :: ts, st =>
    (processItem o oid roster jarvisId t st).andThen
      (processLoop o oid roster jarvisId ts)

/-- One invocation of `main` up to the summary output: roster query, backlog
query, then the per-item loop. -/
def runTriage (o : Nat → Bool) (oid : Nat) (s : Store) : RunRes :=
  (storeCall o ⟨s, 0, []⟩ "agents select" (fun x => x)).andThen fun st0 =>
    let roster := activeAgents st0.store.agents oid
    let jarvisId := (rosterGet roster "jarvis".data).map (fun a => a.id)
    (storeCall o st0 "tasks select" (fun x => x)).andThen fun st1 =>
      processLoop o oid roster jarvisId (fetchInbox st1.store oid) st1

/-- The summary printed on success: the zero-items message for an empty
backlog, otherwise a count line and one line per processed item. -/
def summaryLines (processed : List Outcome) : List String :=
  if processed.isEmpty then
    ["Procesado: 0 tasks (no había tasks en inbox)."]
  else
    ("Procesado: " ++ toString processed.length ++ " tasks") ::
      processed.map (fun p =>
        "- " ++ toString p.id ++ ": +" ++ toString p.subtasks_created ++
          " subtasks, status=" ++ p.status ++
          (if p.skipped_existing then " (subtasks ya existían)" else ""))

/-- Observable outcome of one process invocation. -/
structure RunOutput where
  exitCode : Nat
  stdout : List String
  stderr : List String
deriving DecidableEq, Repr

/-- The driver `main().catch(...)`: on success print the summary and exit 0; on the
first store failure print one error line on stderr and exit 1. -/
def mainRun (o : Nat → Bool) (oid : Nat) (s : Store) : RunOutput × Store :=
  match runTriage o oid s with
  | .ok st => (⟨0, summaryLines st.processed, []⟩, st.store)
  | .fail m st => (⟨1, [], ["ERROR triage: " ++ m]⟩, st.store)

/-- The all-successful failure oracle: no store call errors. -/
def noFail : Nat → Bool := fun _ => false

/-- Final state of a failure-free invocation. -/
def runState (oid : Nat) (s : Store) : RunSt :=
  (runTriage noFail oid s).state

/-- Final store of a failure-free invocation. -/
def runStore (oid : Nat) (s : Store) : Store :=
  (runState oid s).store

/-- Outcome records of a failure-free invocation, in processing order. -/
def runOutcomes (oid : Nat) (s : Store) : List Outcome :=
  (runState oid s).processed

/-- Number of subtask rows of a given owner attached to a given item. -/
def countSubs (s : Store) (oid i : Nat) : Nat :=
  (s.subtasks.filter (fun r => r.owner_id == oid && r.task_id == i)).length

/-- Number of comment rows of a given owner attached to a given item. -/
def countComments (s : Store) (oid i : Nat) : Nat :=
  (s.comments.filter (fun r => r.owner_id == oid && r.task_id == i)).length

/-- Number of activity entries of a given owner targeting a given item. -/
def countActivity (s : Store) (oid i : Nat) : Nat :=
  (s.activity.filter (fun r => r.owner_id == oid && r.entity_id == i)).length

/-- The state after one item is processed with no store failure: derived
normal form of `processItem noFail` (proved equal below), with every write
spelled out once. -/
def pureItem (oid : Nat) (roster : List Agent) (jarvisId : Option Nat)
    (task : TaskRow) (st : RunSt) : RunSt :=
  if task.status ≠ "inbox" then st
  else
    let alreadyHas :=
      !((st.store.subtasks.filter
          (fun r => r.owner_id == oid && r.task_id == task.id)).take 1).isEmpty
    let needs := needsNico task
    let ns := decideStatus task
    let rows :=
      if !alreadyHas && !needs then mkSubtaskRows oid roster jarvisId task
      else []
    let createActs :=
      if !alreadyHas && !needs then
        [mkActivity oid jarvisId "create_subtasks" task.id
          (.created rows.length)]
      else []
    { store :=
        { tasks := condUpdateStatus st.store.tasks oid task.id ns
          subtasks := st.store.subtasks ++ rows
          comments := st.store.comments ++ [mkCommentRow oid jarvisId task needs]
          activity := st.store.activity ++ createActs ++
            [mkActivity oid jarvisId "add_comment" task.id
              (.kind "triage_summary"),
             mkActivity oid jarvisId "move_status" task.id (.move "inbox" ns)]
          agents := st.store.agents }
      calls := st.calls + (if !alreadyHas && !needs then 7 else 5)
      processed := st.processed ++ [⟨task.id, rows.length, ns, alreadyHas⟩] }

/-- The failure-free item loop. -/
def pureLoop (oid : Nat) (roster : List Agent) (jarvisId : Option Nat) :
    List TaskRow → RunSt → RunSt
  | [], st => st
  | t :: ts, st =>
    pureLoop oid roster jarvisId ts (pureItem oid roster jarvisId t st)

/-- Relation between a task row before and after one pass: all fields but
the status are untouched, and the status either stays put or makes the
single one-shot transition from `inbox` to `triage` or `needs_nico`. -/
def triagedFrom (r r' : TaskRow) : Prop :=
  r'.id = r.id ∧ r'.owner_id = r.owner_id ∧ r'.title = r.title ∧
  r'.description = r.description ∧ r'.created_at = r.created_at ∧
  (r'.status = r.status ∨
    (r.status = "inbox" ∧ (r'.status = "triage" ∨ r'.status = "needs_nico")))

/-- Write-monotonicity order on stores: the three append-only relations of
the first store are prefixes of those of the second. -/
def StoreLe (s s' : Store) : Prop :=
  s.subtasks <+: s'.subtasks ∧ s.comments <+: s'.comments ∧
  s.activity <+: s'.activity

/-- A concrete non-vague inbox task (Scenario A of the spec). -/
def sampleTask : TaskRow :=
  ⟨1, 1, "Fix bug in API", some "", "inbox", 0⟩

/-- A store holding only `sampleTask`, with an empty roster. -/
def sampleStore : Store :=
  { tasks := [sampleTask], subtasks := [], comments := [], activity := [],
    agents := [] }

/-- A pre-existing subtask of `sampleTask`. -/
def sampleSubtask : SubtaskRow :=
  ⟨1, 1, "paso previo", "in_progress", none, "hecho", 0, "Dev"⟩

/-- A store where `sampleTask` already has a subtask. -/
def sampleStore2 : Store :=
  { tasks := [sampleTask], subtasks := [sampleSubtask], comments := [],
    activity := [], agents := [] }

/-- A store with no rows at all (empty backlog). -/
def emptyStore : Store :=
  { tasks := [], subtasks := [], comments := [], activity := [], agents := [] }

example : inferAgentBucket "Fix bug in API" (some "") = "Dev" := by decide
example : inferAgentBucket "post semanal" none = "Skool" := by decide
example : inferAgentBucket "deploy docs" none = "Ops" := by decide
example : inferAgentBucket "investigar opciones" none = "Research" := by decide
example : inferAgentBucket "otra cosa" none = "Jarvis" := by decide
example : needsNico ⟨1, 1, "ayuda", some "", "inbox", 0⟩ = true := by decide
example : needsNico ⟨1, 1, "  TODO!  ", none, "inbox", 0⟩ = true := by decide
example : needsNico ⟨1, 1, "Fix bug in API", some "", "inbox", 0⟩ = false := by
  decide
example : needsNico ⟨1, 1, "corto", some "hay contexto", "inbox", 0⟩ = false := by
  decide
example : (buildSubtasks ⟨1, 1, "Fix bug in API", some "", "inbox", 0⟩).length = 3 := by
  decide

/-! ### Character-level facts -/

/-- A basic-latin capital letter is a word character. -/
lemma isWordChar_of_upper (c : Char) (h1 : 65 ≤ c.toNat) (h2 : c.toNat ≤ 90) :
    isWordChar c = true := by
  simp only [Char.toNat, UInt32.toNat] at h1 h2
  simp [isWordChar, Char.isAlphanum, Char.isAlpha, Char.isUpper,
    UInt32.le_def, BitVec.le_def]
  omega

/-- If the lower-cased image of a character is a word character, so is the
character itself (ASCII case folding only relabels capital letters). -/
lemma isWordChar_of_toLower (c : Char)
    (h : isWordChar (Char.toLower c) = true) : isWordChar c = true := by
  by_cases hc : 65 ≤ c.toNat ∧ c.toNat ≤ 90
  · exact isWordChar_of_upper c hc.1 hc.2
  · rw [Char.toLower] at h
    simp only [hc, if_false] at h
    exact h

/-- Every filler word is non-empty and made of word characters. -/
lemma fillerWords_chars :
    ∀ w ∈ fillerWords, w ≠ [] ∧ ∀ c ∈ w, isWordChar c = true := by decide

/-! ### The strip-based matcher agrees with the regex semantics -/

/-- The function `stripNonWord` exhibits a decomposition of the list into a non-word
prefix, the core, and a non-word suffix. -/
lemma stripNonWord_decomp (l : List Char) :
    ∃ pre post, l = pre ++ stripNonWord l ++ post ∧
      (∀ c ∈ pre, isWordChar c = false) ∧
      (∀ c ∈ post, isWordChar c = false) := by
  refine ⟨l.takeWhile (fun c => !isWordChar c),
    ((l.dropWhile (fun c => !isWordChar c)).reverse.takeWhile
      (fun c => !isWordChar c)).reverse, ?_, ?_, ?_⟩
  · unfold stripNonWord
    conv_lhs =>
      rw [← List.takeWhile_append_dropWhile (p := fun c => !isWordChar c)
        (l := l)]
    rw [List.append_assoc]
    congr 1
    calc
      l.dropWhile (fun c => !isWordChar c)
          = (l.dropWhile (fun c => !isWordChar c)).reverse.reverse := by
            rw [List.reverse_reverse]
      _ = (((l.dropWhile (fun c => !isWordChar c)).reverse.takeWhile
              (fun c => !isWordChar c)) ++
            ((l.dropWhile (fun c => !isWordChar c)).reverse.dropWhile
              (fun c => !isWordChar c))).reverse := by
            rw [List.takeWhile_append_dropWhile]
      _ = _ := by rw [List.reverse_append]
  · intro c hc
    have := List.mem_takeWhile_imp hc
    simpa using this
  · intro c hc
    rw [List.mem_reverse] at hc
    have := List.mem_takeWhile_imp hc
    simpa using this

/-- The function `stripNonWord` recovers the core of any decomposition whose core is a
non-empty all-word-character list. -/
lemma stripNonWord_of_decomp (pre core post : List Char)
    (hpre : ∀ c ∈ pre, isWordChar c = false)
    (hpost : ∀ c ∈ post, isWordChar c = false)
    (hcore : ∀ c ∈ core, isWordChar c = true) (hne : core ≠ []) :
    stripNonWord (pre ++ core ++ post) = core := by
  unfold stripNonWord
  have hdrop : (pre ++ core ++ post).dropWhile (fun c => !isWordChar c) =
      core ++ post := by
    rw [List.append_assoc, List.dropWhile_append]
    have hpre' : pre.dropWhile (fun c => !isWordChar c) = [] :=
      List.dropWhile_eq_nil_iff.mpr (fun a ha => by simp [hpre a ha])
    simp only [hpre', List.isEmpty_nil, if_true]
    cases core with
    | nil => exact absurd rfl hne
    | cons c0 cs =>
      rw [List.cons_append, List.dropWhile_cons]
      simp [hcore c0 (by simp)]
  rw [hdrop, List.reverse_append, List.dropWhile_append]
  have hpost' : post.reverse.dropWhile (fun c => !isWordChar c) = [] :=
    List.dropWhile_eq_nil_iff.mpr
      (fun a ha => by simp [hpost a (List.mem_reverse.mp ha)])
  simp only [hpost', List.isEmpty_nil, if_true]
  obtain ⟨c1, cs1, h1⟩ :=
    List.exists_cons_of_ne_nil (l := core.reverse) (by simpa using hne)
  rw [h1, List.dropWhile_cons]
  have hc1 : c1 ∈ core := by
    rw [← List.mem_reverse, h1]; simp
  simp [hcore c1 hc1, ← h1]

/-- The executable matcher used in `needsNico` decides exactly the
declarative regex semantics. -/
lemma matchesFiller_iff (l : List Char) :
    matchesFiller l = true ↔ fillerRegexMatch l := by
  constructor
  · intro h
    unfold matchesFiller at h
    rw [List.any_eq_true] at h
    obtain ⟨w, hw, heq⟩ := h
    rw [beq_iff_eq] at heq
    obtain ⟨pre, post, hdecomp, hpre, hpost⟩ := stripNonWord_decomp l
    exact ⟨pre, stripNonWord l, post, hdecomp, hpre, hpost, heq ▸ hw⟩
  · rintro ⟨pre, core, post, rfl, hpre, hpost, hcore⟩
    have hword : ∀ c ∈ core, isWordChar c = true := by
      intro c hc
      have hlc : Char.toLower c ∈ core.map Char.toLower :=
        List.mem_map_of_mem _ hc
      exact isWordChar_of_toLower c ((fillerWords_chars _ hcore).2 _ hlc)
    have hne : core ≠ [] := by
      intro hnil
      rw [hnil] at hcore
      simp only [List.map_nil] at hcore
      exact absurd hcore (by decide)
    unfold matchesFiller
    rw [List.any_eq_true]
    exact ⟨core.map Char.toLower, hcore, by
      rw [stripNonWord_of_decomp pre core post hpre hpost hword hne,
        beq_self_eq_true]⟩

/-- C1.  The vagueness verdict `needsNico(title, description)` holds iff
(the trimmed title has fewer than 8 characters, or the trimmed title
matches the case-insensitive filler-word pattern with surrounding non-word
characters allowed) and the trimmed description is empty. -/
theorem needsNico_characterization (task : TaskRow) :
    needsNico task = true ↔
      (((normalizeText (some task.title)).length < 8 ∨
          fillerRegexMatch (normalizeText (some task.title))) ∧
        normalizeText task.description = []) := by
  unfold needsNico
  simp only [Bool.and_eq_true, Bool.or_eq_true, decide_eq_true_eq,
    matchesFiller_iff, beq_iff_eq, List.length_eq_zero]

/-! ### Plan Builder shape -/

/-- The plan is one of five concrete step lists, depending on the bucket. -/
lemma buildPlan_cases (b : String) :
    buildPlan b = [clarifyStep, validateStep] ∨
    buildPlan b = [clarifyStep, researchStep, validateStep] ∨
    buildPlan b = [clarifyStep, skoolStep, validateStep] ∨
    buildPlan b = [clarifyStep, devStep, validateStep] ∨
    buildPlan b = [clarifyStep, opsStep, validateStep] := by
  by_cases h1 : b = "Research"
  · subst h1; exact Or.inr (Or.inl (by decide))
  by_cases h2 : b = "Skool"
  · subst h2; exact Or.inr (Or.inr (Or.inl (by decide)))
  by_cases h3 : b = "Dev"
  · subst h3; exact Or.inr (Or.inr (Or.inr (Or.inl (by decide))))
  by_cases h4 : b = "Ops"
  · subst h4; exact Or.inr (Or.inr (Or.inr (Or.inr (by decide))))
  · left
    simp [buildPlan, h1, h2, h3, h4]

/-- C2.  For every item, the plan has between 2 and 7 steps (the cap at 7
is enforced by the final truncation), its first step is the
scope-clarification step and its last step is the final-validation step. -/
theorem buildSubtasks_shape (task : TaskRow) :
    2 ≤ (buildSubtasks task).length ∧ (buildSubtasks task).length ≤ 7 ∧
    (buildSubtasks task).head? = some clarifyStep ∧
    (buildSubtasks task).getLast? = some validateStep := by
  unfold buildSubtasks
  rcases buildPlan_cases (inferAgentBucket task.title task.description) with
    h | h | h | h | h <;>
    rw [h] <;> exact ⟨by decide, by decide, by decide, by decide⟩

/-! ### Classifier as an ordered rule table -/

/-- C3.  The classifier equals the spec's ordered-rule-table evaluation:
the fixed rules (Skool, then Ops, then Dev, then Research) are tried
against the lower-cased concatenation of title and description, the first
keyword-set with any match wins, and the default bucket `Jarvis` results
when none match.  Determinism and purity are inherent: the classifier is a
mathematical function of the pair (title, description). -/
theorem inferAgentBucket_eq_rules (title : String)
    (description : Option String) :
    inferAgentBucket title description = classifyByRules title description := by
  unfold inferAgentBucket classifyByRules classifierRules
  by_cases h1 : skoolWords.any (fun w => containsSeq (triageText title description) w)
  · simp [List.find?, h1]
  by_cases h2 : opsWords.any (fun w => containsSeq (triageText title description) w)
  · simp [List.find?, h1, h2]
  by_cases h3 : devWords.any (fun w => containsSeq (triageText title description) w)
  · simp [List.find?, h1, h2, h3]
  by_cases h4 : researchWords.any (fun w => containsSeq (triageText title description) w)
  · simp [List.find?, h1, h2, h3, h4]
  · simp [List.find?, h1, h2, h3, h4]

/-! ### Roster resolution -/

/-- C7.  Assignee resolution is a case-insensitive lookup of the bucket
name in the roster; a miss falls back to the default automated agent, and
when that too is absent the result is `none` (unassigned).  The resolver is
a total function: no input produces an error. -/
theorem pickId_resolution :
    (∀ (roster : List Agent) (j : Option Nat) (b₁ b₂ : String),
        b₁.data.map Char.toLower = b₂.data.map Char.toLower →
        pickId roster j b₁ = pickId roster j b₂) ∧
    (∀ (roster : List Agent) (j : Option Nat) (b : String) (a : Agent),
        rosterGet roster (b.data.map Char.toLower) = some a →
        pickId roster j b = some a.id) ∧
    (∀ (roster : List Agent) (j : Option Nat) (b : String),
        rosterGet roster (b.data.map Char.toLower) = none →
        pickId roster j b = j) ∧
    (∀ (roster : List Agent) (b : String),
        rosterGet roster (b.data.map Char.toLower) = none →
        pickId roster none b = none) := by
  refine ⟨?_, ?_, ?_, ?_⟩
  · intro roster j b₁ b₂ h
    unfold pickId
    rw [h]
  · intro roster j b a h
    unfold pickId
    rw [h]
  · intro roster j b h
    unfold pickId
    rw [h]
  · intro roster b h
    unfold pickId
    rw [h]

/-- Witness for C7 at concrete inputs: an empty roster falls back to the
default agent id, an absent default yields `none`, and an upper-cased
bucket still finds its agent. -/
theorem pickId_resolution_witness :
    pickId [] (some 9) "Ops" = some 9 ∧
    pickId [] none "Ops" = none ∧
    pickId [⟨5, 1, "Dev", "builder", true⟩] none "DEV" = some 5 := by
  refine ⟨pickId_resolution.2.2.1 [] (some 9) "Ops" (by rfl),
    pickId_resolution.2.2.2 [] "Ops" (by rfl),
    pickId_resolution.2.1 [⟨5, 1, "Dev", "builder", true⟩] none "DEV"
      ⟨5, 1, "Dev", "builder", true⟩ (by rfl)⟩

/-! ### The failure-free run in normal form -/

/-- A store call that cannot fail applies its mutation and bumps the
counter. -/
lemma storeCall_noFail (st : RunSt) (msg : String) (mutate : Store → Store) :
    storeCall noFail st msg mutate =
      .ok { st with calls := st.calls + 1, store := mutate st.store } := rfl

/-- With no store failure, `processItem` succeeds and produces exactly the
`pureItem` state. -/
lemma processItem_noFail (oid : Nat) (roster : List Agent)
    (jarvisId : Option Nat) (task : TaskRow) (st : RunSt) :
    processItem noFail oid roster jarvisId task st =
      .ok (pureItem oid roster jarvisId task st) := by
  unfold processItem pureItem
  by_cases hs : task.status = "inbox"
  · simp only [hs, ne_eq, not_true_eq_false, if_false, storeCall_noFail,
      RunRes.andThen]
    by_cases hb :
        (!!((st.store.subtasks.filter
            (fun r => r.owner_id == oid && r.task_id == task.id)).take
              1).isEmpty && !needsNico task) = true
    · simp only [hb, if_true, storeCall_noFail, RunRes.andThen,
        RunRes.ok.injEq, RunSt.mk.injEq, Store.mk.injEq]
      refine ⟨⟨?_, ?_, ?_, ?_, ?_⟩, ?_, ?_⟩ <;>
        simp [List.append_assoc]
    · simp only [Bool.not_eq_true] at hb
      simp only [hb, Bool.false_eq_true, if_false, storeCall_noFail,
        RunRes.andThen, RunRes.ok.injEq, RunSt.mk.injEq, Store.mk.injEq]
      refine ⟨⟨?_, ?_, ?_, ?_, ?_⟩, ?_, ?_⟩ <;>
        simp [List.append_assoc]
  · simp [hs]

/-- With no store failure, the loop succeeds and produces `pureLoop`. -/
lemma processLoop_noFail (oid : Nat) (roster : List Agent)
    (jarvisId : Option Nat) (l : List TaskRow) (st : RunSt) :
    processLoop noFail oid roster jarvisId l st =
      .ok (pureLoop oid roster jarvisId l st) := by
  induction l generalizing st with
  | nil => rfl
  | cons t ts ih =>
    simp [processLoop, processItem_noFail, RunRes.andThen, pureLoop, ih]

/-- The failure-free invocation in normal form: roster from the store's
active agents, default agent `jarvis`, then the pure loop over the fetched
backlog. -/
lemma runState_eq (oid : Nat) (s : Store) :
    runState oid s =
      pureLoop oid (activeAgents s.agents oid)
        ((rosterGet (activeAgents s.agents oid) "jarvis".data).map
          (fun a => a.id))
        (fetchInbox s oid) ⟨s, 2, []⟩ := by
  simp [runState, runTriage, storeCall, noFail, RunRes.andThen,
    processLoop_noFail, RunRes.state]

/-! ### Per-item write shape -/

/-- Every row of a decomposition batch belongs to the decomposed item and
owner. -/
lemma mkSubtaskRows_mem (oid : Nat) (roster : List Agent) (j : Option Nat)
    (t : TaskRow) (r : SubtaskRow) (hr : r ∈ mkSubtaskRows oid roster j t) :
    r.owner_id = oid ∧ r.task_id = t.id := by
  unfold mkSubtaskRows at hr
  obtain ⟨p, hp, rfl⟩ := List.mem_map.mp hr
  exact ⟨rfl, rfl⟩

/-- A task whose status is not `inbox` is skipped without any write. -/
lemma pureItem_skip (oid : Nat) (roster : List Agent) (j : Option Nat)
    (t : TaskRow) (st : RunSt) (hs : t.status ≠ "inbox") :
    pureItem oid roster j t st = st := by
  simp [pureItem, hs]

/-- The only write to the `tasks` relation for a processed item is the
conditional status update. -/
lemma pureItem_tasks (oid : Nat) (roster : List Agent) (j : Option Nat)
    (t : TaskRow) (st : RunSt) (hs : t.status = "inbox") :
    (pureItem oid roster j t st).store.tasks =
      condUpdateStatus st.store.tasks oid t.id (decideStatus t) := by
  simp [pureItem, hs]

/-- Each processed item appends exactly one outcome, carrying its id and
the decided status. -/
lemma pureItem_processed (oid : Nat) (roster : List Agent) (j : Option Nat)
    (t : TaskRow) (st : RunSt) (hs : t.status = "inbox") :
    ∃ oc : Outcome, (pureItem oid roster j t st).processed =
      st.processed ++ [oc] ∧ oc.id = t.id ∧ oc.status = decideStatus t := by
  simp only [pureItem, hs, ne_eq, not_true_eq_false, if_false]
  exact ⟨_, rfl, rfl, rfl⟩

/-- The last activity entry written for a processed item is the
`move_status` record, regardless of whether decomposition happened or the
conditional write changed anything. -/
lemma pureItem_activity_getLast (oid : Nat) (roster : List Agent)
    (j : Option Nat) (t : TaskRow) (st : RunSt) (hs : t.status = "inbox") :
    (pureItem oid roster j t st).store.activity.getLast? =
      some (mkActivity oid j "move_status" t.id
        (.move "inbox" (decideStatus t))) := by
  simp only [pureItem, hs, ne_eq, not_true_eq_false, if_false]
  have h2 : ∀ l : List ActivityRow,
      (l ++ [mkActivity oid j "add_comment" t.id (.kind "triage_summary"),
        mkActivity oid j "move_status" t.id
          (.move "inbox" (decideStatus t))]).getLast? =
      some (mkActivity oid j "move_status" t.id
        (.move "inbox" (decideStatus t))) := by
    intro l
    rw [show [mkActivity oid j "add_comment" t.id (.kind "triage_summary"),
        mkActivity oid j "move_status" t.id (.move "inbox" (decideStatus t))] =
        [mkActivity oid j "add_comment" t.id (.kind "triage_summary")] ++
        [mkActivity oid j "move_status" t.id
          (.move "inbox" (decideStatus t))] from rfl,
      ← List.append_assoc, List.getLast?_concat]
  exact h2 _

/-- When the item has no subtasks yet and is not vague, the batch insert
appends exactly the `mkSubtaskRows` rows. -/
lemma pureItem_subtasks_create (oid : Nat) (roster : List Agent)
    (j : Option Nat) (t : TaskRow) (st : RunSt) (hs : t.status = "inbox")
    (hno : st.store.subtasks.filter
      (fun r => r.owner_id == oid && r.task_id == t.id) = [])
    (hneeds : needsNico t = false) :
    (pureItem oid roster j t st).store.subtasks =
      st.store.subtasks ++ mkSubtaskRows oid roster j t := by
  simp [pureItem, hs, hno, hneeds]

/-! ### Counting lemmas -/

/-- Processing an item never changes the subtask count of a different
item. -/
lemma countSubs_pureItem_of_ne (oid : Nat) (roster : List Agent)
    (j : Option Nat) (t : TaskRow) (st : RunSt) (i : Nat) (h : t.id ≠ i) :
    countSubs (pureItem oid roster j t st).store oid i =
      countSubs st.store oid i := by
  by_cases hs : t.status = "inbox"
  · simp only [pureItem, hs, ne_eq, not_true_eq_false, if_false, countSubs]
    rw [List.filter_append, List.length_append]
    have hz : (List.filter (fun r => r.owner_id == oid && r.task_id == i)
        (if (!!(List.take 1 (List.filter
            (fun r => r.owner_id == oid && r.task_id == t.id)
            st.store.subtasks)).isEmpty && !needsNico t) = true then
          mkSubtaskRows oid roster j t else [])) = [] := by
      split
      · rw [List.filter_eq_nil_iff]
        intro r hr
        obtain ⟨ho, hti⟩ := mkSubtaskRows_mem oid roster j t r hr
        simp [hti, h]
      · rfl
    rw [hz]
    rfl
  · rw [pureItem_skip oid roster j t st hs]

/-- Processing an item whose owner-scoped subtask count is already nonzero
never changes that count: the existing-subtask check suppresses the batch
insert. -/
lemma countSubs_pureItem_of_has (oid : Nat) (roster : List Agent)
    (j : Option Nat) (t : TaskRow) (st : RunSt) (i : Nat)
    (h : countSubs st.store oid i ≠ 0) :
    countSubs (pureItem oid roster j t st).store oid i =
      countSubs st.store oid i := by
  by_cases hti : t.id = i
  · subst hti
    by_cases hs : t.status = "inbox"
    · have hne : List.filter (fun r => r.owner_id == oid && r.task_id == t.id)
          st.store.subtasks ≠ [] := by
        intro hnil
        rw [countSubs, hnil] at h
        exact h rfl
      have hempty : (!(List.take 1 (List.filter
          (fun r => r.owner_id == oid && r.task_id == t.id)
          st.store.subtasks)).isEmpty) = true := by
        cases hfe : List.filter (fun r => r.owner_id == oid && r.task_id == t.id)
            st.store.subtasks with
        | nil => exact absurd hfe hne
        | cons a l => simp [hfe]
      simp only [pureItem, hs, ne_eq, not_true_eq_false, if_false, hempty,
        Bool.not_true, Bool.false_and, Bool.false_eq_true, if_false, countSubs]
      simp
    · rw [pureItem_skip oid roster j t st hs]
  · exact countSubs_pureItem_of_ne oid roster j t st i hti

/-- Processing an item leaves the comment and activity counts of any other
item unchanged. -/
lemma counts_pureItem_of_ne (oid : Nat) (roster : List Agent)
    (j : Option Nat) (t : TaskRow) (st : RunSt) (i : Nat) (h : t.id ≠ i) :
    countComments (pureItem oid roster j t st).store oid i =
        countComments st.store oid i ∧
      countActivity (pureItem oid roster j t st).store oid i =
        countActivity st.store oid i := by
  by_cases hs : t.status = "inbox"
  · constructor
    · simp only [pureItem, hs, ne_eq, not_true_eq_false, if_false,
        countComments]
      rw [List.filter_append, List.length_append]
      simp [mkCommentRow, h]
    · simp only [pureItem, hs, ne_eq, not_true_eq_false, if_false,
        countActivity]
      rw [List.append_assoc, List.filter_append, List.length_append,
        add_right_eq_self, List.length_eq_zero, List.filter_eq_nil_iff]
      intro r hr
      have hrid : r.entity_id = t.id := by
        rw [List.mem_append] at hr
        rcases hr with hr | hr
        · split at hr
          · rw [List.mem_singleton] at hr
            rw [hr]
            rfl
          · exact absurd hr (List.not_mem_nil r)
        · simp only [List.mem_cons, List.not_mem_nil, or_false] at hr
          rcases hr with hr | hr <;> rw [hr] <;> rfl
      simp [hrid, h]
  · rw [pureItem_skip oid roster j t st hs]
    exact ⟨rfl, rfl⟩

/-! ### Loop-level lemmas -/

/-- Once an item has any subtask (for the run's owner), no run changes its
subtask count. -/
lemma countSubs_pureLoop_of_has (oid : Nat) (roster : List Agent)
    (j : Option Nat) (l : List TaskRow) (st : RunSt) (i : Nat)
    (h : countSubs st.store oid i ≠ 0) :
    countSubs (pureLoop oid roster j l st).store oid i =
      countSubs st.store oid i := by
  induction l generalizing st with
  | nil => rfl
  | cons t ts ih =>
    have h1 := countSubs_pureItem_of_has oid roster j t st i h
    rw [pureLoop, ih _ (by rw [h1]; exact h), h1]

/-- The loop writes comments and activity only for the items it iterates
over. -/
lemma counts_pureLoop_of_not_mem (oid : Nat) (roster : List Agent)
    (j : Option Nat) (l : List TaskRow) (st : RunSt) (i : Nat)
    (h : ∀ t ∈ l, t.id ≠ i) :
    countComments (pureLoop oid roster j l st).store oid i =
        countComments st.store oid i ∧
      countActivity (pureLoop oid roster j l st).store oid i =
        countActivity st.store oid i := by
  induction l generalizing st with
  | nil => exact ⟨rfl, rfl⟩
  | cons t ts ih =>
    obtain ⟨hc, ha⟩ :=
      counts_pureItem_of_ne oid roster j t st i (h t (by simp))
    obtain ⟨hc2, ha2⟩ := ih (pureItem oid roster j t st)
      (fun u hu => h u (by simp [hu]))
    rw [pureLoop]
    exact ⟨hc2.trans hc, ha2.trans ha⟩

/-- When every iterated item has status `inbox`, the loop appends exactly
one outcome per item, in iteration order, carrying the items' ids. -/
lemma pureLoop_processed_ids (oid : Nat) (roster : List Agent)
    (j : Option Nat) (l : List TaskRow) (st : RunSt)
    (h : ∀ t ∈ l, t.status = "inbox") :
    (pureLoop oid roster j l st).processed.map (fun p => p.id) =
      st.processed.map (fun p => p.id) ++ l.map (fun t => t.id) := by
  induction l generalizing st with
  | nil => simp [pureLoop]
  | cons t ts ih =>
    rw [pureLoop]
    obtain ⟨oc, hoc, hid, _⟩ :=
      pureItem_processed oid roster j t st (h t (by simp))
    rw [ih _ (fun u hu => h u (by simp [hu])), hoc]
    simp [hid]

/-! ### Status-transition invariant -/

/-- The relation `triagedFrom` is reflexive. -/
lemma triagedFrom_refl (r : TaskRow) : triagedFrom r r :=
  ⟨rfl, rfl, rfl, rfl, rfl, Or.inl rfl⟩

/-- The decided status is one of the two triage targets. -/
lemma decideStatus_cases (t : TaskRow) :
    decideStatus t = "triage" ∨ decideStatus t = "needs_nico" := by
  unfold decideStatus
  split
  · exact Or.inr rfl
  · exact Or.inl rfl

/-- One conditional-update row step preserves `triagedFrom`. -/
lemma triagedFrom_condUpdate (oid id : Nat) (ns : String)
    (hns : ns = "triage" ∨ ns = "needs_nico") (r r' : TaskRow)
    (h : triagedFrom r r') :
    triagedFrom r
      (if r'.owner_id == oid && r'.id == id && r'.status == "inbox" then
        { r' with status := ns } else r') := by
  split
  case isTrue hc =>
    obtain ⟨h1, h2, h3, h4, h5, h6⟩ := h
    refine ⟨h1, h2, h3, h4, h5, Or.inr ⟨?_, ?_⟩⟩
    · have hr' : r'.status = "inbox" := by
        simp only [Bool.and_eq_true, beq_iff_eq] at hc
        exact hc.2
      rcases h6 with h6 | h6
      · rw [← h6, hr']
      · exact h6.1
    · exact hns
  case isFalse => exact h

/-- The conditional status write preserves `triagedFrom` row-wise. -/
lemma forall2_condUpdate (oid id : Nat) (ns : String)
    (hns : ns = "triage" ∨ ns = "needs_nico") (base cur : List TaskRow)
    (h : List.Forall₂ triagedFrom base cur) :
    List.Forall₂ triagedFrom base (condUpdateStatus cur oid id ns) := by
  unfold condUpdateStatus
  rw [List.forall₂_map_right_iff]
  exact h.imp (fun a b hab => triagedFrom_condUpdate oid id ns hns a b hab)

/-- The loop preserves `triagedFrom` between the initial and current task
relations. -/
lemma forall2_pureLoop (oid : Nat) (roster : List Agent) (j : Option Nat)
    (l : List TaskRow) (base : List TaskRow) (st : RunSt)
    (h : List.Forall₂ triagedFrom base st.store.tasks) :
    List.Forall₂ triagedFrom base (pureLoop oid roster j l st).store.tasks := by
  induction l generalizing st with
  | nil => exact h
  | cons t ts ih =>
    rw [pureLoop]
    apply ih
    by_cases hs : t.status = "inbox"
    · rw [pureItem_tasks oid roster j t st hs]
      exact forall2_condUpdate oid t.id (decideStatus t)
        (decideStatus_cases t) base st.store.tasks h
    · rw [pureItem_skip oid roster j t st hs]
      exact h

/-! ### Backlog query order -/

/-- Membership through ordered insertion. -/
lemma mem_insertByCreated (t a : TaskRow) (l : List TaskRow) :
    a ∈ insertByCreated t l ↔ a = t ∨ a ∈ l := by
  induction l with
  | nil => simp [insertByCreated]
  | cons u us ih =>
    unfold insertByCreated
    split
    · simp [List.mem_cons]
    · simp only [List.mem_cons, ih]
      tauto

/-- Sorting permutes membership only. -/
lemma mem_sortByCreated (a : TaskRow) (l : List TaskRow) :
    a ∈ sortByCreated l ↔ a ∈ l := by
  induction l with
  | nil => simp [sortByCreated]
  | cons t ts ih => simp [sortByCreated, mem_insertByCreated, ih]

/-- Ordered insertion preserves sortedness by creation time. -/
lemma pairwise_insertByCreated (t : TaskRow) (l : List TaskRow)
    (h : l.Pairwise (fun a b => a.created_at ≤ b.created_at)) :
    (insertByCreated t l).Pairwise
      (fun a b => a.created_at ≤ b.created_at) := by
  induction l with
  | nil => simp [insertByCreated]
  | cons u us ih =>
    rw [List.pairwise_cons] at h
    unfold insertByCreated
    split
    case isTrue hle =>
      rw [List.pairwise_cons]
      refine ⟨?_, List.pairwise_cons.mpr h⟩
      intro b hb
      rcases List.mem_cons.mp hb with rfl | hb
      · exact hle
      · exact le_trans hle (h.1 b hb)
    case isFalse hle =>
      rw [List.pairwise_cons]
      refine ⟨?_, ih h.2⟩
      intro b hb
      rw [mem_insertByCreated] at hb
      rcases hb with rfl | hb
      · exact Nat.le_of_not_le hle
      · exact h.1 b hb

/-- The sorted backlog is ascending in creation time. -/
lemma pairwise_sortByCreated (l : List TaskRow) :
    (sortByCreated l).Pairwise (fun a b => a.created_at ≤ b.created_at) := by
  induction l with
  | nil => exact List.Pairwise.nil
  | cons t ts ih => exact pairwise_insertByCreated t _ ih

/-- Every fetched row belongs to the owner and has status `inbox`. -/
lemma fetchInbox_mem (s : Store) (oid : Nat) (t : TaskRow)
    (ht : t ∈ fetchInbox s oid) : t.owner_id = oid ∧ t.status = "inbox" := by
  unfold fetchInbox at ht
  have h2 := List.take_subset _ _ ht
  rw [mem_sortByCreated] at h2
  have h3 := List.mem_filter.mp h2
  simpa using h3.2

/-- C8.  One invocation fetches at most 20 items, all owned by the
configured owner with status exactly `inbox`, in ascending creation-time
order, and the run processes exactly those items in that order (one outcome
per fetched item, ids in fetch order). -/
theorem fetchInbox_spec (s : Store) (oid : Nat) :
    (fetchInbox s oid).length ≤ 20 ∧
    (∀ t ∈ fetchInbox s oid, t.owner_id = oid ∧ t.status = "inbox") ∧
    (fetchInbox s oid).Pairwise (fun a b => a.created_at ≤ b.created_at) ∧
    (runOutcomes oid s).map (fun p => p.id) =
      (fetchInbox s oid).map (fun t => t.id) := by
  refine ⟨?_, ?_, ?_, ?_⟩
  · unfold fetchInbox
    rw [List.length_take]
    exact min_le_left _ _
  · exact fun t ht => fetchInbox_mem s oid t ht
  · exact List.Pairwise.sublist (List.take_sublist _ _)
      (pairwise_sortByCreated _)
  · unfold runOutcomes
    rw [runState_eq]
    rw [pureLoop_processed_ids _ _ _ _ _
      (fun t ht => (fetchInbox_mem s oid t ht).2)]
    simp

/-- Witness for C8 at the concrete sample store: one fetched item, and the
run's outcome list carries exactly its id. -/
theorem fetchInbox_spec_witness :
    (fetchInbox sampleStore 1).length ≤ 20 ∧
    (sampleTask.owner_id = 1 ∧ sampleTask.status = "inbox") ∧
    (runOutcomes 1 sampleStore).map (fun p => p.id) =
      (fetchInbox sampleStore 1).map (fun t => t.id) :=
  ⟨(fetchInbox_spec sampleStore 1).1,
   (fetchInbox_spec sampleStore 1).2.1 sampleTask (by decide),
   (fetchInbox_spec sampleStore 1).2.2.2⟩

/-! ### Idempotence of decomposition -/

/-- C4 (amended).  An item that already has any subtask for the run's owner
never receives another batch: its subtask count is unchanged by a run.  The
summary comment and activity entries, however, are appended only for items
the run actually fetches (status still `inbox` at fetch time): for an item
not in the fetched backlog — in particular an item a previous run already
moved out of `inbox` — the run appends no comment and no activity entry. -/
theorem triage_idempotent_subtasks (oid : Nat) (s : Store) (i : Nat) :
    (countSubs s oid i ≠ 0 →
      countSubs (runStore oid s) oid i = countSubs s oid i) ∧
    ((∀ t ∈ fetchInbox s oid, t.id ≠ i) →
      countComments (runStore oid s) oid i = countComments s oid i ∧
      countActivity (runStore oid s) oid i = countActivity s oid i) := by
  constructor
  · intro h
    unfold runStore
    rw [runState_eq]
    exact countSubs_pureLoop_of_has oid _ _ _ _ i h
  · intro h
    unfold runStore
    rw [runState_eq]
    exact counts_pureLoop_of_not_mem oid _ _ _ _ i h

/-- Witness for C4's amended statement: with an existing subtask the run
leaves the count at 1, and an id absent from the backlog gets no comment. -/
theorem triage_idempotent_subtasks_witness :
    countSubs (runStore 1 sampleStore2) 1 1 = countSubs sampleStore2 1 1 ∧
    countComments (runStore 1 sampleStore) 1 2 =
      countComments sampleStore 1 2 :=
  ⟨(triage_idempotent_subtasks 1 sampleStore2 1).1 (by decide),
   ((triage_idempotent_subtasks 1 sampleStore 2).2 (by decide)).1⟩

/-- C4 counterexample to the claim as stated.  Starting from a backlog with
one fresh item, the first run creates its 3 subtasks, one comment and 3
activity entries; a second run over the resulting store appends no new
comment and no new activity entry for that item (it is no longer in
`inbox`, hence not fetched), contradicting "the summary comment and the
activity-log entries are still appended on each run". -/
theorem triage_second_run_counterexample :
    countSubs (runStore 1 sampleStore) 1 1 = 3 ∧
    countSubs (runStore 1 (runStore 1 sampleStore)) 1 1 = 3 ∧
    countComments (runStore 1 sampleStore) 1 1 = 1 ∧
    countComments (runStore 1 (runStore 1 sampleStore)) 1 1 = 1 ∧
    countActivity (runStore 1 sampleStore) 1 1 = 3 ∧
    countActivity (runStore 1 (runStore 1 sampleStore)) 1 1 = 3 := by
  decide

/-! ### Status decision and one-shot transition -/

/-- C6.  The decided target status is `needs_nico` (the repository's
literal for the spec's `needs_clarification`) exactly when the vagueness
verdict holds and `triage` otherwise; and over one whole pass every task
row either keeps its status or makes the single one-shot transition from
`inbox` to one of those two statuses, all other fields untouched. -/
theorem statusDecision_oneShot :
    (∀ t : TaskRow,
      (needsNico t = true → decideStatus t = "needs_nico") ∧
      (needsNico t = false → decideStatus t = "triage")) ∧
    (∀ (oid : Nat) (s : Store),
      List.Forall₂ triagedFrom s.tasks (runStore oid s).tasks) := by
  constructor
  · intro t
    constructor
    · intro h
      simp [decideStatus, h]
    · intro h
      simp [decideStatus, h]
  · intro oid s
    unfold runStore
    rw [runState_eq]
    apply forall2_pureLoop
    exact List.forall₂_same.mpr (fun a _ => triagedFrom_refl a)

/-- Witness for C6: a vague item is routed to `needs_nico`, the concrete
non-vague sample item to `triage`. -/
theorem statusDecision_oneShot_witness :
    decideStatus ⟨1, 1, "ayuda", some "", "inbox", 0⟩ = "needs_nico" ∧
    decideStatus sampleTask = "triage" :=
  ⟨(statusDecision_oneShot.1 ⟨1, 1, "ayuda", some "", "inbox", 0⟩).1
      (by decide),
   (statusDecision_oneShot.1 sampleTask).2 (by decide)⟩

/-! ### Conditional status write -/

/-- C5.  The status transition is a conditional write: only rows matching
owner, id and current status exactly `inbox` are updated; a write matching
zero rows leaves the relation untouched and is benign (the failure-free
item step still returns successfully); and the `move_status` activity entry
with the from/to pair is the last write of every processed item, logged
regardless of whether the conditional update changed anything. -/
theorem condWrite_semantics :
    (∀ (tasks : List TaskRow) (oid i : Nat) (ns : String),
      (∀ r ∈ tasks, ¬(r.owner_id = oid ∧ r.id = i ∧ r.status = "inbox")) →
      condUpdateStatus tasks oid i ns = tasks) ∧
    (∀ (tasks : List TaskRow) (oid i : Nat) (ns : String) (k : Nat)
        (r : TaskRow), tasks[k]? = some r → r.status ≠ "inbox" →
      (condUpdateStatus tasks oid i ns)[k]? = some r) ∧
    (∀ (oid : Nat) (roster : List Agent) (j : Option Nat) (t : TaskRow)
        (st : RunSt), t.status = "inbox" →
      (pureItem oid roster j t st).store.tasks =
        condUpdateStatus st.store.tasks oid t.id (decideStatus t) ∧
      (pureItem oid roster j t st).store.activity.getLast? =
        some (mkActivity oid j "move_status" t.id
          (.move "inbox" (decideStatus t)))) ∧
    (∀ (oid : Nat) (roster : List Agent) (j : Option Nat) (t : TaskRow)
        (st : RunSt),
      processItem noFail oid roster j t st =
        .ok (pureItem oid roster j t st)) := by
  refine ⟨?_, ?_, ?_, ?_⟩
  · intro tasks oid i ns h
    unfold condUpdateStatus
    induction tasks with
    | nil => rfl
    | cons a l ih =>
      rw [List.map_cons]
      have hcond :
          ¬((a.owner_id == oid && a.id == i && a.status == "inbox") = true) := by
        have ha := h a (List.mem_cons_self a l)
        simp only [Bool.and_eq_true, beq_iff_eq]
        tauto
      rw [if_neg hcond, ih (fun r hr => h r (List.mem_cons_of_mem a hr))]
  · intro tasks oid i ns k r hk hst
    unfold condUpdateStatus
    rw [List.getElem?_map, hk]
    simp [hst]
  · intro oid roster j t st hs
    exact ⟨pureItem_tasks oid roster j t st hs,
      pureItem_activity_getLast oid roster j t st hs⟩
  · intro oid roster j t st
    exact processItem_noFail oid roster j t st

/-- Witness for C5 at concrete inputs: a zero-row conditional write is the
identity, a non-`inbox` row survives untouched, and the sample item's step
applies exactly the conditional write. -/
theorem condWrite_semantics_witness :
    condUpdateStatus [⟨1, 1, "t", none, "triage", 0⟩] 1 1 "needs_nico" =
      [⟨1, 1, "t", none, "triage", 0⟩] ∧
    (condUpdateStatus [⟨1, 1, "t", none, "done", 0⟩] 1 1 "triage")[0]? =
      some ⟨1, 1, "t", none, "done", 0⟩ ∧
    (pureItem 1 [] none sampleTask ⟨sampleStore, 2, []⟩).store.tasks =
      condUpdateStatus sampleStore.tasks 1 sampleTask.id
        (decideStatus sampleTask) ∧
    processItem noFail 1 [] none sampleTask ⟨sampleStore, 2, []⟩ =
      .ok (pureItem 1 [] none sampleTask ⟨sampleStore, 2, []⟩) :=
  ⟨condWrite_semantics.1 [⟨1, 1, "t", none, "triage", 0⟩] 1 1 "needs_nico"
      (by decide),
   condWrite_semantics.2.1 [⟨1, 1, "t", none, "done", 0⟩] 1 1 "triage" 0
      ⟨1, 1, "t", none, "done", 0⟩ (by decide) (by decide),
   (condWrite_semantics.2.2.1 1 [] none sampleTask ⟨sampleStore, 2, []⟩
      (by decide)).1,
   condWrite_semantics.2.2.2 1 [] none sampleTask ⟨sampleStore, 2, []⟩⟩

/-! ### Failure semantics -/

/-- The order `StoreLe` is reflexive. -/
lemma StoreLe_refl (s : Store) : StoreLe s s :=
  ⟨List.prefix_refl _, List.prefix_refl _, List.prefix_refl _⟩

/-- The order `StoreLe` is transitive. -/
lemma StoreLe_trans {a b c : Store} (h1 : StoreLe a b) (h2 : StoreLe b c) :
    StoreLe a c :=
  ⟨h1.1.trans h2.1, h1.2.1.trans h2.2.1, h1.2.2.trans h2.2.2⟩

/-- A store call whose mutation only extends the append-only relations
reaches a state extending the starting store, whether it fails or not. -/
lemma storeCall_state_mono (o : Nat → Bool) (st : RunSt) (m : String)
    (mutate : Store → Store) (hmut : ∀ x, StoreLe x (mutate x)) :
    StoreLe st.store ((storeCall o st m mutate).state).store := by
  unfold storeCall
  split
  · exact StoreLe_refl _
  · exact hmut st.store

/-- Sequencing preserves store extension. -/
lemma andThen_state_mono (r : RunRes) (f : RunSt → RunRes) (a : Store)
    (h1 : StoreLe a r.state.store)
    (h2 : ∀ st, StoreLe st.store ((f st).state).store) :
    StoreLe a ((r.andThen f).state).store := by
  cases r with
  | ok st => exact StoreLe_trans h1 (h2 st)
  | fail m st => exact h1

/-- Whatever happens while processing one item — including a failure at any
of its store calls — the state reached extends the starting store: no write
is rolled back. -/
lemma processItem_state_mono (o : Nat → Bool) (oid : Nat)
    (roster : List Agent) (j : Option Nat) (t : TaskRow) (st : RunSt) :
    StoreLe st.store ((processItem o oid roster j t st).state).store := by
  unfold processItem
  split
  · exact StoreLe_refl _
  · apply andThen_state_mono
    · exact storeCall_state_mono o st _ _ (fun x => StoreLe_refl x)
    · intro st1
      dsimp only
      split
      · apply andThen_state_mono
        · exact storeCall_state_mono o st1 _ _ (fun x =>
            ⟨List.prefix_append _ _, List.prefix_refl _, List.prefix_refl _⟩)
        · intro st2
          apply andThen_state_mono
          · exact storeCall_state_mono o st2 _ _ (fun x =>
              ⟨List.prefix_refl _, List.prefix_refl _, List.prefix_append _ _⟩)
          · intro st3
            apply andThen_state_mono
            · exact storeCall_state_mono o st3 _ _ (fun x =>
                ⟨List.prefix_refl _, List.prefix_append _ _, List.prefix_refl _⟩)
            · intro st4
              apply andThen_state_mono
              · exact storeCall_state_mono o st4 _ _ (fun x =>
                  ⟨List.prefix_refl _, List.prefix_refl _,
                   List.prefix_append _ _⟩)
              · intro st5
                apply andThen_state_mono
                · exact storeCall_state_mono o st5 _ _ (fun x =>
                    ⟨List.prefix_refl _, List.prefix_refl _,
                     List.prefix_refl _⟩)
                · intro st6
                  apply andThen_state_mono
                  · exact storeCall_state_mono o st6 _ _ (fun x =>
                      ⟨List.prefix_refl _, List.prefix_refl _,
                       List.prefix_append _ _⟩)
                  · intro st7
                    exact StoreLe_refl _
      · apply andThen_state_mono
        · exact storeCall_state_mono o st1 _ _ (fun x =>
            ⟨List.prefix_refl _, List.prefix_append _ _, List.prefix_refl _⟩)
        · intro st2
          apply andThen_state_mono
          · exact storeCall_state_mono o st2 _ _ (fun x =>
              ⟨List.prefix_refl _, List.prefix_refl _, List.prefix_append _ _⟩)
          · intro st3
            apply andThen_state_mono
            · exact storeCall_state_mono o st3 _ _ (fun x =>
                ⟨List.prefix_refl _, List.prefix_refl _, List.prefix_refl _⟩)
            · intro st4
              apply andThen_state_mono
              · exact storeCall_state_mono o st4 _ _ (fun x =>
                  ⟨List.prefix_refl _, List.prefix_refl _,
                   List.prefix_append _ _⟩)
              · intro st5
                exact StoreLe_refl _

/-- The loop never rolls back a write, failure or not. -/
lemma processLoop_state_mono (o : Nat → Bool) (oid : Nat)
    (roster : List Agent) (j : Option Nat) (l : List TaskRow) (st : RunSt) :
    StoreLe st.store ((processLoop o oid roster j l st).state).store := by
  induction l generalizing st with
  | nil => exact StoreLe_refl _
  | cons t ts ih =>
    simp only [processLoop]
    exact andThen_state_mono _ _ _
      (processItem_state_mono o oid roster j t st) (fun st' => ih st')

/-- Sequencing is associative. -/
lemma andThen_assoc (r : RunRes) (f g : RunSt → RunRes) :
    (r.andThen f).andThen g = r.andThen (fun st => (f st).andThen g) := by
  cases r <;> rfl

/-- Splitting the loop: the items before a failure are fully processed
first, and the rest of the run continues (or aborts) from the state they
produced. -/
lemma processLoop_append (o : Nat → Bool) (oid : Nat) (roster : List Agent)
    (j : Option Nat) (l1 l2 : List TaskRow) (st : RunSt) :
    processLoop o oid roster j (l1 ++ l2) st =
      (processLoop o oid roster j l1 st).andThen
        (processLoop o oid roster j l2) := by
  induction l1 generalizing st with
  | nil => rfl
  | cons t ts ih =>
    simp only [List.cons_append, processLoop]
    rw [andThen_assoc]
    congr 1
    funext st'
    exact ih st'

/-- The empty backlog runs to completion touching nothing. -/
lemma runTriage_empty (oid : Nat) (s : Store) (h : fetchInbox s oid = []) :
    runTriage noFail oid s = .ok ⟨s, 2, []⟩ := by
  simp [runTriage, storeCall, noFail, RunRes.andThen, h, processLoop]

/-- C9.  Failure semantics: the first failing store call inside an item
aborts the whole run with that error and state (no later item is touched);
the loop decomposes sequentially, and the state reached always extends the
initial store (no rollback of writes applied for earlier items); a failing
run exits 1 with one message on stderr; an empty backlog runs to
completion, printing the zero-items message and exiting 0. -/
theorem triage_failure_semantics (o : Nat → Bool) (oid : Nat)
    (roster : List Agent) (j : Option Nat) (t : TaskRow)
    (rest : List TaskRow) (st : RunSt) (m : String) (stf : RunSt)
    (o2 : Nat → Bool) (oid2 : Nat) (s2 : Store) (m2 : String) (stf2 : RunSt)
    (s : Store)
    (h1 : processItem o oid roster j t st = .fail m stf)
    (h3 : runTriage o2 oid2 s2 = .fail m2 stf2)
    (h2 : fetchInbox s oid = []) :
    processLoop o oid roster j (t :: rest) st = .fail m stf ∧
    (∀ l1 l2 st', processLoop o oid roster j (l1 ++ l2) st' =
      (processLoop o oid roster j l1 st').andThen
        (processLoop o oid roster j l2)) ∧
    (∀ l st', StoreLe st'.store
      ((processLoop o oid roster j l st').state).store) ∧
    (mainRun o2 oid2 s2).1.exitCode = 1 ∧
    (mainRun o2 oid2 s2).1.stderr = ["ERROR triage: " ++ m2] ∧
    (mainRun noFail oid s).1.exitCode = 0 ∧
    (mainRun noFail oid s).1.stdout =
      ["Procesado: 0 tasks (no había tasks en inbox)."] := by
  refine ⟨?_, ?_, ?_, ?_, ?_, ?_, ?_⟩
  · simp only [processLoop, h1, RunRes.andThen]
  · intro l1 l2 st'
    exact processLoop_append o oid roster j l1 l2 st'
  · intro l st'
    exact processLoop_state_mono o oid roster j l st'
  · unfold mainRun
    rw [h3]
  · unfold mainRun
    rw [h3]
  · unfold mainRun
    rw [runTriage_empty oid s h2]
  · unfold mainRun
    rw [runTriage_empty oid s h2]
    rfl

/-- Witness for C9: a run whose first per-item call fails aborts with that
error; a failing roster query exits 1; the empty store exits 0 with the
zero-items message. -/
theorem triage_failure_semantics_witness :
    processLoop (fun _ => true) 1 [] none [sampleTask] ⟨sampleStore, 2, []⟩ =
      .fail "subtasks select" ⟨sampleStore, 3, []⟩ ∧
    (mainRun (fun n => n == 0) 1 sampleStore).1.exitCode = 1 ∧
    (mainRun noFail 1 emptyStore).1.exitCode = 0 ∧
    (mainRun noFail 1 emptyStore).1.stdout =
      ["Procesado: 0 tasks (no había tasks en inbox)."] := by
  have h := triage_failure_semantics (fun _ => true) 1 [] none sampleTask []
    ⟨sampleStore, 2, []⟩ "subtasks select" ⟨sampleStore, 3, []⟩
    (fun n => n == 0) 1 sampleStore "agents select" ⟨sampleStore, 1, []⟩
    emptyStore (by rfl) (by rfl) (by rfl)
  exact ⟨h.1, h.2.2.2.1, h.2.2.2.2.2.1, h.2.2.2.2.2.2⟩

/-! ### Inserted subtask row invariants -/

/-- Every plan step is one of the six fixed step descriptors. -/
lemma buildPlan_mem_steps (b : String) (p : SubtaskStep)
    (hp : p ∈ buildPlan b) :
    p ∈ [clarifyStep, researchStep, skoolStep, devStep, opsStep,
      validateStep] := by
  rcases buildPlan_cases b with h | h | h | h | h <;> rw [h] at hp <;>
    simp only [List.mem_cons, List.not_mem_nil, or_false] at hp ⊢ <;> tauto

/-- Each of the six step descriptors has a non-empty definition of done. -/
lemma steps_dod_ne :
    ∀ p ∈ [clarifyStep, researchStep, skoolStep, devStep, opsStep,
      validateStep], p.definition_of_done ≠ "" := by decide

/-- Every step of every plan has a non-empty definition of done. -/
lemma buildSubtasks_dod_ne (task : TaskRow) (p : SubtaskStep)
    (hp : p ∈ buildSubtasks task) : p.definition_of_done ≠ "" :=
  steps_dod_ne p (buildPlan_mem_steps _ p hp)

/-- C10.  Every subtask row of a decomposition batch is inserted with
status `in_progress`, sort order equal to its zero-based position in the
plan, metadata bucket equal to the originating step's bucket, the owner and
parent item of the run, and a non-empty definition-of-done; and for a
decomposed item (fetched in `inbox`, no existing subtask, not vague) the
run appends exactly this batch to the subtasks relation. -/
theorem subtaskRows_invariants (oid : Nat) (roster : List Agent)
    (j : Option Nat) (task : TaskRow) (k : Nat) (r : SubtaskRow)
    (hk : (mkSubtaskRows oid roster j task)[k]? = some r) :
    (mkSubtaskRows oid roster j task).length = (buildSubtasks task).length ∧
    r.status = "in_progress" ∧ r.sort_order = k ∧ r.owner_id = oid ∧
    r.task_id = task.id ∧
    (∃ p, (buildSubtasks task)[k]? = some p ∧ r.triage_bucket = p.bucket ∧
      r.definition_of_done = p.definition_of_done ∧
      r.assignee_agent_id = pickId roster j p.bucket) ∧
    r.definition_of_done ≠ "" ∧
    (∀ st : RunSt, task.status = "inbox" →
      st.store.subtasks.filter
        (fun q => q.owner_id == oid && q.task_id == task.id) = [] →
      needsNico task = false →
      (pureItem oid roster j task st).store.subtasks =
        st.store.subtasks ++ mkSubtaskRows oid roster j task) := by
  have hlen : (mkSubtaskRows oid roster j task).length =
      (buildSubtasks task).length := by
    unfold mkSubtaskRows
    rw [List.length_map, List.enum_length]
  unfold mkSubtaskRows at hk
  rw [List.getElem?_map, List.getElem?_enum] at hk
  cases hp : (buildSubtasks task)[k]? with
  | none =>
    rw [hp] at hk
    simp at hk
  | some p =>
    rw [hp] at hk
    simp only [Option.map_some'] at hk
    have hr := (Option.some.inj hk).symm
    subst hr
    refine ⟨hlen, rfl, rfl, rfl, rfl, ⟨p, rfl, rfl, rfl, rfl⟩, ?_, ?_⟩
    · exact buildSubtasks_dod_ne task p
        (List.getElem?_mem hp)
    · intro st hs hno hneeds
      exact pureItem_subtasks_create oid roster j task st hs hno hneeds

/-- Witness for C10 at the sample item: the first row of its batch, and the
run's insert of exactly that batch from the initial store. -/
theorem subtaskRows_invariants_witness :
    (⟨1, 1, clarifyStep.title, "in_progress", none,
        clarifyStep.definition_of_done, 0, clarifyStep.bucket⟩ :
      SubtaskRow).status = "in_progress" ∧
    (⟨1, 1, clarifyStep.title, "in_progress", none,
        clarifyStep.definition_of_done, 0, clarifyStep.bucket⟩ :
      SubtaskRow).definition_of_done ≠ "" ∧
    (pureItem 1 [] none sampleTask ⟨sampleStore, 2, []⟩).store.subtasks =
      sampleStore.subtasks ++ mkSubtaskRows 1 [] none sampleTask := by
  have h := subtaskRows_invariants 1 [] none sampleTask 0
    ⟨1, 1, clarifyStep.title, "in_progress", none,
      clarifyStep.definition_of_done, 0, clarifyStep.bucket⟩ (by decide)
  exact ⟨h.2.1, h.2.2.2.2.2.2.1,
    h.2.2.2.2.2.2.2 ⟨sampleStore, 2, []⟩ (by rfl) (by rfl) (by decide)⟩
